import Mathlib

/-!
Verification of the response-normalization and image-bytes resolution
pipeline of an MCP image-generation server (`src/index.ts`).

Modelling conventions:
* JavaScript strings are modelled as `List Char`.
* Byte buffers (`Buffer`) are modelled as `List Nat` with entries `< 256`.
* Network fetch is passed in as an explicit oracle function; file writes
  are modelled as always succeeding (the persister's failure mode under
  study is resolution failure).
* JavaScript truthiness of optional string fields (`undefined`/`""` are
  falsy) is modelled explicitly.
-/

/-! ## Generic string helpers -/

/-- ASCII lower-casing of one character (models `String.prototype.toLowerCase`
restricted to ASCII, which is all the code's comparisons need). -/
def toLowerAscii (c : Char) : Char :=
  if 'A' ≤ c && c ≤ 'Z' then Char.ofNat (c.toNat + 32) else c

/-- `startsWithStr pat s` : does `s` start with `pat` (case sensitive)? -/
def startsWithStr : List Char → List Char → Bool
  | [], _ => true
  | _ :: _, [] => false
  | p :: ps, c :: cs => p == c && startsWithStr ps cs

/-- `startsWithCI pat s` : does `s` start with `pat` case-insensitively?
`pat` is given in lower case. -/
def startsWithCI : List Char → List Char → Bool
  | [], _ => true
  | _ :: _, [] => false
  | p :: ps, c :: cs => toLowerAscii c == p && startsWithCI ps cs

/-- Substring test, models `String.prototype.includes`. -/
def hasSub (needle : List Char) : List Char → Bool
  | [] => needle.isEmpty
  | c :: cs => startsWithStr needle (c :: cs) || hasSub needle cs

def lowerStr (s : List Char) : List Char := s.map toLowerAscii

/-- The whitespace class used by JS `\s` and `String.prototype.trim`
(ASCII part plus NBSP and BOM; rare Unicode space code points elided). -/
def isJsSpaceB (c : Char) : Bool :=
  c == ' ' || c == '\t' || c == '\n' || c == '\r' ||
  c == Char.ofNat 11 || c == Char.ofNat 12 || c == Char.ofNat 160 ||
  c == Char.ofNat 0xFEFF

def trimJs (s : List Char) : List Char :=
  ((s.dropWhile isJsSpaceB).reverse.dropWhile isJsSpaceB).reverse

def digitChar (n : Nat) : Char := Char.ofNat (48 + n)

/-- Decimal rendering of a natural number, fuelled for structural
recursion (`n + 1` steps always suffice).  Models JS `${n}`. -/
def natDigitsGo : Nat → Nat → List Char
  | 0, _ => []
  | fuel + 1, n =>
      if n < 10 then [digitChar n]
      else natDigitsGo fuel (n / 10) ++ [digitChar (n % 10)]

def natDigits (n : Nat) : List Char := natDigitsGo (n + 1) n

/-! ## Base64 (models Node `Buffer.from(·, 'base64')` and base64 encoding) -/

def b64Alphabet : List Char :=
  "ABCDEFGHIJKLMNOPQRSTUVWXYZabcdefghijklmnopqrstuvwxyz0123456789+/".data

def charOfVal (v : Nat) : Char := b64Alphabet.getD v '='

def valOfChar (c : Char) : Option Nat :=
  let i := b64Alphabet.findIdx (fun a => a == c)
  if i < 64 then some i else none

/-- Bytes → sextets, the grouping step of base64 encoding. -/
def encodeGroups : List Nat → List Nat
  | a :: b :: c :: rest =>
      a / 4 :: ((a % 4) * 16 + b / 16) :: ((b % 16) * 4 + c / 64) :: (c % 64)
        :: encodeGroups rest
  | [a, b] => [a / 4, (a % 4) * 16 + b / 16, (b % 16) * 4]
  | [a] => [a / 4, (a % 4) * 16]
  | [] => []

/-- Sextets → bytes, the grouping step of (lenient) base64 decoding. -/
def decodeGroups : List Nat → List Nat
  | c1 :: c2 :: c3 :: c4 :: rest =>
      (c1 * 4 + c2 / 16) :: ((c2 % 16) * 16 + c3 / 4) :: ((c3 % 4) * 64 + c4)
        :: decodeGroups rest
  | [c1, c2, c3] => [c1 * 4 + c2 / 16, (c2 % 16) * 16 + c3 / 4]
  | [c1, c2] => [c1 * 4 + c2 / 16]
  | _ => []

def base64PadFor (n : Nat) : List Char :=
  match n % 3 with
  | 1 => ['=', '=']
  | 2 => ['=']
  | _ => []

def base64Encode (bs : List Nat) : List Char :=
  (encodeGroups bs).map charOfVal ++ base64PadFor bs.length

/-- Lenient base64 decoding: characters outside the alphabet (including
padding `=`) are ignored, as Node's decoder does on the inputs arising here. -/
def base64Decode (s : List Char) : List Nat :=
  decodeGroups (s.filterMap valOfChar)

theorem decodeGroups_encodeGroups :
    ∀ bs : List Nat, (∀ x ∈ bs, x < 256) → decodeGroups (encodeGroups bs) = bs
  | [], _ => rfl
  | [a], h => by
      have ha : a < 256 := h a (by simp)
      simp [encodeGroups, decodeGroups]
      omega
  | [a, b], h => by
      have ha : a < 256 := h a (by simp)
      have hb : b < 256 := h b (by simp)
      simp [encodeGroups, decodeGroups]
      omega
  | a :: b :: c :: rest, h => by
      have ha : a < 256 := h a (by simp)
      have hb : b < 256 := h b (by simp)
      have hc : c < 256 := h c (by simp)
      have ih := decodeGroups_encodeGroups rest (fun x hx => h x (by simp [hx]))
      simp [encodeGroups, decodeGroups, ih]
      omega

theorem encodeGroups_lt64 :
    ∀ bs : List Nat, (∀ x ∈ bs, x < 256) → ∀ v ∈ encodeGroups bs, v < 64
  | [], _ => by simp [encodeGroups]
  | [a], h => by
      have ha : a < 256 := h a (by simp)
      intro v hv
      simp [encodeGroups] at hv
      rcases hv with h1 | h1 <;> omega
  | [a, b], h => by
      have ha : a < 256 := h a (by simp)
      have hb : b < 256 := h b (by simp)
      intro v hv
      simp [encodeGroups] at hv
      rcases hv with h1 | h1 | h1 <;> omega
  | a :: b :: c :: rest, h => by
      have ha : a < 256 := h a (by simp)
      have hb : b < 256 := h b (by simp)
      have hc : c < 256 := h c (by simp)
      have ih := encodeGroups_lt64 rest (fun x hx => h x (by simp [hx]))
      intro v hv
      simp [encodeGroups] at hv
      rcases hv with h1 | h1 | h1 | h1 | h1
      · omega
      · omega
      · omega
      · omega
      · exact ih v h1

theorem valOfChar_charOfVal : ∀ v : Nat, v < 64 → valOfChar (charOfVal v) = some v := by
  decide

theorem filterMap_valOfChar_map :
    ∀ l : List Nat, (∀ v ∈ l, v < 64) → (l.map charOfVal).filterMap valOfChar = l := by
  intro l
  induction l with
  | nil => simp
  | cons v t ih =>
      intro h
      have hv : valOfChar (charOfVal v) = some v := valOfChar_charOfVal v (h v (by simp))
      simp [List.filterMap_cons, hv, ih (fun x hx => h x (by simp [hx]))]

theorem base64_roundtrip (bs : List Nat) (h : ∀ x ∈ bs, x < 256) :
    base64Decode (base64Encode bs) = bs := by
  unfold base64Encode base64Decode
  rw [List.filterMap_append]
  have hpad : (base64PadFor bs.length).filterMap valOfChar = [] := by
    have hv : valOfChar '=' = none := by decide
    unfold base64PadFor
    split <;> simp [hv]
  rw [filterMap_valOfChar_map _ (encodeGroups_lt64 bs h), hpad, List.append_nil]
  exact decodeGroups_encodeGroups bs h

/-! ## Percent decoding and UTF-8 (models `decodeURIComponent` followed by
`Buffer.from(·, 'utf8')`, which together turn the non-base64 `<data>` part
of a data URL into bytes) -/

/-- UTF-8 encoding of one Unicode scalar value. -/
def utf8EncodeChar (c : Char) : List Nat :=
  let n := c.toNat
  if n < 0x80 then [n]
  else if n < 0x800 then [0xC0 + n / 64, 0x80 + n % 64]
  else if n < 0x10000 then
    [0xE0 + n / 4096, 0x80 + (n / 64) % 64, 0x80 + n % 64]
  else
    [0xF0 + n / 262144, 0x80 + (n / 4096) % 64, 0x80 + (n / 64) % 64, 0x80 + n % 64]

def hexVal (c : Char) : Option Nat :=
  if '0' ≤ c && c ≤ '9' then some (c.toNat - 48)
  else if 'a' ≤ c && c ≤ 'f' then some (c.toNat - 87)
  else if 'A' ≤ c && c ≤ 'F' then some (c.toNat - 55)
  else none

inductive PctToken where
  | lit (c : Char)
  | byte (b : Nat)
  deriving DecidableEq

/-- Tokenize a percent-encoded string: each `%HH` escape becomes a raw byte,
any other character stays literal.  Fails (as `decodeURIComponent` throws)
on a malformed escape. -/
def pctTokens : List Char → Option (List PctToken)
  | [] => some []
  | '%' :: h1 :: h2 :: rest =>
      match hexVal h1, hexVal h2 with
      | some v1, some v2 => (pctTokens rest).map (PctToken.byte (v1 * 16 + v2) :: ·)
      | _, _ => none
  | '%' :: _ => none
  | c :: cs => (pctTokens cs).map (PctToken.lit c :: ·)

def isContByte (b : Nat) : Bool := 0x80 ≤ b && b ≤ 0xBF

/-- Standard strict UTF-8 validity of a byte sequence. -/
def utf8Valid : List Nat → Bool
  | [] => true
  | b :: rest =>
    if b ≤ 0x7F then utf8Valid rest
    else if 0xC2 ≤ b && b ≤ 0xDF then
      match rest with
      | b2 :: r => isContByte b2 && utf8Valid r
      | [] => false
    else if 0xE0 ≤ b && b ≤ 0xEF then
      match rest with
      | b2 :: b3 :: r =>
          (if b = 0xE0 then decide (0xA0 ≤ b2) && decide (b2 ≤ 0xBF)
           else if b = 0xED then decide (0x80 ≤ b2) && decide (b2 ≤ 0x9F)
           else isContByte b2) && isContByte b3 && utf8Valid r
      | _ => false
    else if 0xF0 ≤ b && b ≤ 0xF4 then
      match rest with
      | b2 :: b3 :: b4 :: r =>
          (if b = 0xF0 then decide (0x90 ≤ b2) && decide (b2 ≤ 0xBF)
           else if b = 0xF4 then decide (0x80 ≤ b2) && decide (b2 ≤ 0x8F)
           else isContByte b2) && isContByte b3 && isContByte b4 && utf8Valid r
      | _ => false
    else false

def pctTokenBytes : PctToken → List Nat
  | .lit c => utf8EncodeChar c
  | .byte b => [b]

/-- Byte-level model of `Buffer.from(decodeURIComponent(s), 'utf8')`:
escapes become raw bytes, literal characters their UTF-8 encoding; the
whole byte sequence must be valid UTF-8 (escape sequences that do not form
valid UTF-8 make `decodeURIComponent` throw). -/
def decodeURIComponentBytes (l : List Char) : Option (List Nat) :=
  match pctTokens l with
  | none => none
  | some toks =>
      let bs := (toks.map pctTokenBytes).flatten
      if utf8Valid bs then some bs else none

/-! ## Data model of the resolver (`src/index.ts`) -/

/-- Model of the `ImageInput` union type (line 50).  The three runtime
representations of `bytes` (`Buffer`/`ArrayBuffer`/`Uint8Array`) collapse
to one byte list. -/
structure ImageInput where
  url : Option (List Char) := none
  b64_json : Option (List Char) := none
  base64 : Option (List Char) := none
  bytes : Option (List Nat) := none
  mimeType : Option (List Char) := none
  contentType : Option (List Char) := none
  deriving DecidableEq

structure FetchFail where
  status : Nat
  deriving DecidableEq

inductive ResolveError where
  | invalidDataUrl
  | uriError
  | fetchFailed (f : FetchFail)
  | noImageData
  deriving DecidableEq

/-- JS truthiness of an optional string field (`undefined` and `""` falsy). -/
def truthy : Option (List Char) → Bool
  | some s => !s.isEmpty
  | none => false

/-- `a ?? b` on optional string fields (nullish coalescing: `some ""` wins). -/
def nullishOr (a b : Option (List Char)) : Option (List Char) :=
  match a with
  | some s => some s
  | none => b

/-! ## Data-URL parsing (`parseDataUrl`, lines 571-581) -/

def dataColon : List Char := "data:".data
def b64Tag : List Char := ";base64".data

/-- The anchored match `/^data:([^;,]+)?(;base64)?,(.*)$/i` of `parseDataUrl`:
returns `(mime capture, base64 marker present, data part)`.  `[^;,]` may
match a newline, `.` (hence the data part) may not; literal parts match
case-insensitively. -/
def dataUrlMatch (u : List Char) : Option (Option (List Char) × Bool × List Char) :=
  if startsWithCI dataColon u then
    let rest := u.drop 5
    let mimeRun := rest.takeWhile (fun c => !(c == ';') && !(c == ','))
    let after := rest.drop mimeRun.length
    let isB64 := startsWithCI b64Tag after
    let after2 := if isB64 then after.drop 7 else after
    match after2 with
    | ',' :: dat =>
        if dat.all (fun c => !(c == '\n')) then
          some ((if mimeRun.isEmpty then none else some mimeRun), isB64, dat)
        else none
    | _ => none
  else none

/-- `parseDataUrl` (lines 571-581).  A non-matching string throws
`Invalid data URL`; a matching one base64-decodes or percent-decodes the
data part.  A malformed percent escape surfaces as a distinct `URIError`. -/
def parseDataUrl (u : List Char) :
    Except ResolveError (List Nat × Option (List Char)) :=
  match dataUrlMatch u with
  | none => .error .invalidDataUrl
  | some (mime, true, dat) => .ok (base64Decode dat, mime)
  | some (mime, false, dat) =>
      match decodeURIComponentBytes dat with
      | some bs => .ok (bs, mime)
      | none => .error .uriError

/-! ## Mime and extension helpers (`mimeToExt` lines 583-598,
`extFromUrl` lines 600-609) -/

def mimeMap : List (List Char × List Char) :=
  [("image/png".data, "png".data),
   ("image/jpeg".data, "jpg".data),
   ("image/jpg".data, "jpg".data),
   ("image/webp".data, "webp".data),
   ("image/gif".data, "gif".data),
   ("image/bmp".data, "bmp".data),
   ("image/tiff".data, "tiff".data),
   ("image/avif".data, "avif".data),
   ("image/svg+xml".data, "svg".data)]

/-- `mimeToExt` (lines 583-598): falsy mime (absent or empty) yields
nothing; otherwise the part before `;` is trimmed, lower-cased and looked
up in the fixed map. -/
def mimeToExt (m : Option (List Char)) : Option (List Char) :=
  match m with
  | none => none
  | some s =>
      if s.isEmpty then none
      else mimeMap.lookup (lowerStr (trimJs (s.takeWhile (fun c => !(c == ';')))))

/-- The allow-list of `extFromUrl` (line 603). -/
def extAllowList : List (List Char) :=
  ["png".data, "jpg".data, "jpeg".data, "webp".data, "gif".data,
   "bmp".data, "tiff".data, "svg".data, "ico".data, "avif".data]

def httpSlashes : List Char := "http://".data
def httpsSlashes : List Char := "https://".data

/-- Pathname of `new URL(u)`, simplified to the http(s) case the code
exercises: scheme, then a non-empty authority up to `/`, `?` or `#`, then
the path up to `?` or `#` (default `/`).  Non-http(s) strings are treated
as a parse failure, as `new URL` throwing is caught to `undefined`. -/
def urlPathname (u : List Char) : Option (List Char) :=
  let schemeRest :=
    if startsWithStr httpsSlashes u then some (u.drop 8)
    else if startsWithStr httpSlashes u then some (u.drop 7)
    else none
  match schemeRest with
  | none => none
  | some rest =>
    let authority := rest.takeWhile (fun c => !(c == '/') && !(c == '?') && !(c == '#'))
    if authority.isEmpty then none
    else
      let after := rest.drop authority.length
      match after with
      | '/' :: _ => some (after.takeWhile (fun c => !(c == '?') && !(c == '#')))
      | _ => some ['/']

/-- `path.extname(p).slice(1)`: the part of the basename after its last
dot, empty when there is no dot or the dot is the basename's first
character. -/
def extnameOf (base : List Char) : List Char :=
  let rev := base.reverse
  let pre := rev.takeWhile (fun c => !(c == '.'))
  if pre.length = rev.length then []
  else if pre.length + 1 = rev.length then []
  else pre.reverse

/-- `extFromUrl` (lines 600-609). -/
def extFromUrl (u : List Char) : Option (List Char) :=
  match urlPathname u with
  | none => none
  | some p =>
    let base := (p.reverse.takeWhile (fun c => !(c == '/'))).reverse
    let e := lowerStr (extnameOf base)
    if e.isEmpty then none
    else if extAllowList.contains e then
      if e = "jpeg".data then some "jpg".data else some e
    else none

/-- The extension fallback chain of line 567:
`this.mimeToExt(mime) ?? ext ?? 'png'`. -/
def resolveExt (mime : Option (List Char)) (ext : Option (List Char)) : List Char :=
  match mimeToExt mime with
  | some x => x
  | none =>
      match ext with
      | some x => x
      | none => "png".data

/-! ## Base64-payload header stripping (line 551) -/

/-- The replacement `/^data:.*;base64,/` applied after `data:`: the suffix
after the **last** occurrence of `;base64,` whose preceding characters
contain no newline (`.*` is greedy and does not match `\n`). -/
def lastMarkerSplit : List Char → Option (List Char)
  | [] => none
  | c :: cs =>
      let here : Option (List Char) :=
        if startsWithStr (b64Tag ++ [',']) (c :: cs) then some ((c :: cs).drop 8)
        else none
      let deeper : Option (List Char) :=
        if c = '\n' then none else lastMarkerSplit cs
      deeper <|> here

/-- `(image.b64_json ?? image.base64)!.replace(/^data:.*;base64,/, '')`
(line 551): strip a leading `data:...;base64,` header, if any. -/
def stripDataHeader (s : List Char) : List Char :=
  if startsWithStr dataColon s then
    match lastMarkerSplit (s.drop 5) with
    | some rest => rest
    | none => s
  else s

/-! ## The resolver (`resolveImageBufferAndExt`, lines 529-569) -/

/-- `resolveImageBufferAndExt` (lines 529-569), with the network fetch as
an explicit oracle returning `(body bytes, content-type header)`. -/
def resolveImageBufferAndExt
    (fetch : List Char → Except FetchFail (List Nat × Option (List Char)))
    (image : ImageInput) : Except ResolveError (List Nat × List Char) :=
  if truthy image.url then
    let u := image.url.getD []
    if startsWithStr dataColon u then
      match parseDataUrl u with
      | .ok (buf, mime) => .ok (buf, resolveExt mime none)
      | .error e => .error e
    else
      match fetch u with
      | .ok (buf, ctype) => .ok (buf, resolveExt ctype (extFromUrl u))
      | .error f => .error (.fetchFailed f)
  else if truthy image.b64_json || truthy image.base64 then
    let payload := (nullishOr image.b64_json image.base64).getD []
    .ok (base64Decode (stripDataHeader payload),
         resolveExt (nullishOr image.mimeType image.contentType) none)
  else
    match image.bytes with
    | some bs => .ok (bs, resolveExt (nullishOr image.mimeType image.contentType) none)
    | none => .error .noImageData

/-! ## Chat image extraction (`handleGenerateImage`, lines 271-297) -/

structure ImageUrlField where
  url : Option (List Char) := none
  deriving DecidableEq

structure GeminiImage where
  image_url : Option ImageUrlField := none
  deriving DecidableEq

def httpStr : List Char := "http".data
def dataImageStr : List Char := "data:image".data

/-- Match of `/https?:\/\/[^\s]+/` at the current position (greedy run of
non-whitespace after the scheme, at least one character). -/
def matchHttpAt (l : List Char) : Option (List Char) :=
  if startsWithStr httpsSlashes l then
    let r := (l.drop 8).takeWhile (fun c => !isJsSpaceB c)
    if r.isEmpty then none else some (httpsSlashes ++ r)
  else if startsWithStr httpSlashes l then
    let r := (l.drop 7).takeWhile (fun c => !isJsSpaceB c)
    if r.isEmpty then none else some (httpSlashes ++ r)
  else none

/-- Leftmost match of `/https?:\/\/[^\s]+/` (the `urlMatch` at line 292). -/
def searchUrl : List Char → Option (List Char)
  | [] => none
  | c :: cs => matchHttpAt (c :: cs) <|> searchUrl cs

/-- The capture group `(https?:\/\/[^\s\)]+)` followed by `\)`, matched at
the position directly after `](`. -/
def mdCapture (l : List Char) : Option (List Char) :=
  if startsWithStr httpsSlashes l then
    let tail := l.drop 8
    let r := tail.takeWhile (fun c => !isJsSpaceB c && !(c == ')'))
    if r.isEmpty then none
    else match tail.drop r.length with
      | ')' :: _ => some (httpsSlashes ++ r)
      | _ => none
  else if startsWithStr httpSlashes l then
    let tail := l.drop 7
    let r := tail.takeWhile (fun c => !isJsSpaceB c && !(c == ')'))
    if r.isEmpty then none
    else match tail.drop r.length with
      | ')' :: _ => some (httpSlashes ++ r)
      | _ => none
  else none

/-- The lazy `.*?\]\(` part of the markdown regex, scanning after a `![`:
advance over non-newline characters, at each position trying `](` followed
by the URL capture and `)`. -/
def mdTryAfterBracket : List Char → Option (List Char)
  | [] => none
  | c :: cs =>
      (match c :: cs with
       | ']' :: '(' :: rest => mdCapture rest
       | _ => none) <|>
      (if c = '\n' then none else mdTryAfterBracket cs)

/-- Leftmost match of `/!\[.*?\]\((https?:\/\/[^\s\)]+)\)/` returning the
capture group (the `markdownMatch` at line 288). -/
def mdSearch : List Char → Option (List Char)
  | [] => none
  | c :: cs =>
      (match c :: cs with
       | '!' :: '[' :: rest => mdTryAfterBracket rest
       | _ => none) <|>
      mdSearch cs

/-- The image-reference extraction of lines 271-297.  The structured
`message.images` check is an `if`/`else if` chain: when `images` is
present and non-empty, the content-scanning tiers are not entered at all. -/
def extractImageUrl (imagesOpt : Option (List GeminiImage)) (content : List Char) :
    Option (List Char) :=
  match imagesOpt with
  | some (first :: _) =>
      (match first.image_url with
       | some iu =>
           (match iu.url with
            | some u => if u.isEmpty then none else some u
            | none => none)
       | none => none)
  | _ =>
      if startsWithStr httpStr content then some content
      else if startsWithStr dataImageStr content then some content
      else if hasSub httpStr content || hasSub "![".data content then
        match mdSearch content with
        | some u => some u
        | none => searchUrl content
      else none

/-- The save-path classification at lines 302-304: a reference that starts
with `data:` or `http` is wrapped as `{ url }`, anything else as
`{ base64 }`. -/
def classifyForSave (u : List Char) : ImageInput :=
  if startsWithStr dataColon u || startsWithStr httpStr u then { url := some u }
  else { base64 := some u }

/-! ## Batch persistence (`saveImages`, lines 503-527) -/

/-- `timestamp.replace(/[:.]/g, '-')` (line 514). -/
def tsRender (s : List Char) : List Char :=
  s.map (fun c => if c = ':' || c = '.' then '-' else c)

/-- `sanitizeFilePart` (lines 611-613): the global replacement
`/[^a-z0-9_\-]+/gi → '_'` turns each maximal run of disallowed characters
into a single underscore. -/
def allowedChar (c : Char) : Bool :=
  ('a' ≤ c && c ≤ 'z') || ('A' ≤ c && c ≤ 'Z') || ('0' ≤ c && c ≤ '9') ||
  c == '_' || c == '-'

/-- State machine for the global replacement: `inRun` records whether the
previous character was part of a (already replaced) disallowed run. -/
def collapseGo : Bool → List Char → List Char
  | _, [] => []
  | inRun, c :: cs =>
      if allowedChar c then c :: collapseGo false cs
      else if inRun then collapseGo true cs
      else '_' :: collapseGo true cs

def collapseRuns (s : List Char) : List Char := collapseGo false s

def sanitizeFilePart (s : List Char) : List Char := (collapseRuns s).take 64

/-- The loop body of `saveImages` (lines 508-524).  `now i` is the ISO
timestamp string taken at iteration `i`; `cwd` models `process.cwd()`;
`path.join` is modelled as `/`-concatenation.  A slot that fails to
resolve is logged and *skipped*: nothing is pushed for it. -/
def saveImagesGo
    (fetch : List Char → Except FetchFail (List Nat × Option (List Char)))
    (now : Nat → List Char) (cwd : List Char) (baseFilename : List Char) :
    Nat → List ImageInput → List (List Char)
  | _, [] => []
  | i, img :: rest =>
      match resolveImageBufferAndExt fetch img with
      | .ok (_, ext) =>
          let safeBase := sanitizeFilePart
            (if baseFilename.isEmpty then "generated_image".data else baseFilename)
          let filename := safeBase ++ "_".data ++ tsRender (now i) ++ "_".data ++
            natDigits (i + 1) ++ ".".data ++ ext
          (cwd ++ "/generated_images/".data ++ filename) ::
            saveImagesGo fetch now cwd baseFilename (i + 1) rest
      | .error _ => saveImagesGo fetch now cwd baseFilename (i + 1) rest

/-- `saveImages` (lines 503-527): returns the list of file paths of the
images that were successfully resolved and written. -/
def saveImages
    (fetch : List Char → Except FetchFail (List Nat × Option (List Char)))
    (now : Nat → List Char) (cwd : List Char)
    (images : List ImageInput) (baseFilename : List Char) : List (List Char) :=
  saveImagesGo fetch now cwd baseFilename 0 images

/-! ## Gemini-path normalized result (lines 299-328) -/

structure GenResultGemini where
  success : Bool
  image_url : Option (List Char)
  saved_file : Option (List Char)
  raw_response : List Char
  deriving DecidableEq

/-- The Gemini chat-completion normalization of lines 270-328: extract the
image reference, optionally persist it (`savedFiles[0] || null`), and
return the result record (`success` is unconditionally `true`). -/
def handleGeminiResponse
    (fetch : List Char → Except FetchFail (List Nat × Option (List Char)))
    (now : Nat → List Char) (cwd : List Char)
    (imagesOpt : Option (List GeminiImage)) (content : List Char)
    (save_to_file : Bool) (filename : Option (List Char)) : GenResultGemini :=
  let imageUrl := extractImageUrl imagesOpt content
  let savedFile :=
    if save_to_file then
      match imageUrl with
      | some u =>
          let base := match filename with
            | some f => if f.isEmpty then "generated_image".data else f
            | none => "generated_image".data
          (saveImages fetch now cwd [classifyForSave u] base).head?
      | none => none
    else none
  { success := true, image_url := imageUrl, saved_file := savedFile,
    raw_response := content }

/-! ## Size reporting (`GeminiImageServer` revision embedded in
`src/README.md`, lines 400-425) -/

/-- The size reported for an inline base64 image:
`Math.round(imageUrl.length / 1024)` (README.md lines 408 and 415).  The
argument is the **whole data-URL string** `imageUrl`, header included —
not the bare base64 payload.  For a natural length `Math.round(·/1024)`
is `(length + 512) / 1024` in integer arithmetic. -/
def reportedSizeKB (imageUrl : List Char) : Nat := (imageUrl.length + 512) / 1024

/-- The `image.size` reporting of the README revision (lines 401-418): a
size is attached exactly when the extracted reference starts with
`data:image`, and it is the same `Math.round(imageUrl.length / 1024)`
value in both the `show_full_response` and the concise branch. -/
def geminiImageReportSize (imageUrl : List Char) : Option Nat :=
  if startsWithStr dataImageStr imageUrl then some (reportedSizeKB imageUrl) else none

/-! ## Generic lemmas about the string helpers -/

theorem startsWithStr_append : ∀ (p rest : List Char), startsWithStr p (p ++ rest) = true := by
  intro p rest
  induction p with
  | nil => rfl
  | cons c cs ih => simp [startsWithStr, List.cons_append, ih]

theorem startsWithCI_append (p rest : List Char) (hp : ∀ c ∈ p, toLowerAscii c = c) :
    startsWithCI p (p ++ rest) = true := by
  induction p with
  | nil => rfl
  | cons c cs ih =>
      simp [startsWithCI, List.cons_append, hp c (by simp),
        ih (fun x hx => hp x (by simp [hx]))]

theorem takeWhile_stops (pr : Char → Bool) :
    ∀ (xs ys : List Char), (∀ c ∈ xs, pr c = true) →
    (∀ y, ys.head? = some y → pr y = false) → (xs ++ ys).takeWhile pr = xs := by
  intro xs
  induction xs with
  | nil =>
      intro ys _ hy
      cases ys with
      | nil => rfl
      | cons y t => simp [List.takeWhile_cons, hy y rfl]
  | cons c cs ih =>
      intro ys h hy
      simp [List.takeWhile_cons, h c (by simp), ih ys (fun x hx => h x (by simp [hx])) hy]

theorem isEmpty_append_left (xs ys : List Char) (h : xs ≠ []) :
    (xs ++ ys).isEmpty = false := by
  cases xs with
  | nil => exact absurd rfl h
  | cons c cs => rfl

theorem orElse_eq_some_iff {α : Type} (a b : Option α) (x : α) :
    (a <|> b) = some x ↔ a = some x ∨ (a = none ∧ b = some x) := by
  cases a <;> simp

/-! ## Structure of the data-URL matcher on well-formed inputs -/

theorem dataUrlMatch_b64 (mime dat : List Char) (hm : mime ≠ [])
    (hmc : ∀ c ∈ mime, c ≠ ';' ∧ c ≠ ',') (hd : '\n' ∉ dat) :
    dataUrlMatch (dataColon ++ mime ++ b64Tag ++ ',' :: dat) =
      some (some mime, true, dat) := by
  have hci : startsWithCI dataColon (dataColon ++ (mime ++ (b64Tag ++ ',' :: dat))) = true :=
    startsWithCI_append _ _ (by decide)
  have hlen : dataColon.length = 5 := rfl
  unfold dataUrlMatch
  simp only [List.append_assoc]
  rw [hci]
  simp only [← hlen, List.drop_left]
  have htake : (mime ++ (b64Tag ++ ',' :: dat)).takeWhile
      (fun c => !(c == ';') && !(c == ',')) = mime := by
    apply takeWhile_stops
    · intro c hc
      rcases hmc c hc with ⟨h1, h2⟩
      simp [h1, h2]
    · intro y hy
      have : y = ';' := by
        have hb : b64Tag = ';' :: "base64".data := rfl
        rw [hb] at hy
        simp at hy
        exact hy.symm
      simp [this]
  rw [htake, List.drop_left]
  have hb64 : startsWithCI b64Tag (b64Tag ++ ',' :: dat) = true :=
    startsWithCI_append _ _ (by decide)
  rw [hb64]
  simp only [if_pos rfl]
  have hlen7 : b64Tag.length = 7 := rfl
  rw [show (7 : Nat) = b64Tag.length from rfl, List.drop_left]
  have hall : dat.all (fun c => !(c == '\n')) = true := by
    rw [List.all_eq_true]
    intro c hc
    have : c ≠ '\n' := fun he => hd (he ▸ hc)
    simp [this]
  have hne : mime.isEmpty = false := by
    cases mime with
    | nil => exact absurd rfl hm
    | cons c cs => rfl
  simp [hall, hne]

theorem dataUrlMatch_plain (mime dat : List Char) (hm : mime ≠ [])
    (hmc : ∀ c ∈ mime, c ≠ ';' ∧ c ≠ ',') (hd : '\n' ∉ dat) :
    dataUrlMatch (dataColon ++ mime ++ ',' :: dat) =
      some (some mime, false, dat) := by
  have hci : startsWithCI dataColon (dataColon ++ (mime ++ ',' :: dat)) = true :=
    startsWithCI_append _ _ (by decide)
  unfold dataUrlMatch
  simp only [List.append_assoc]
  rw [hci]
  simp only [show (5 : Nat) = dataColon.length from rfl, List.drop_left]
  have htake : (mime ++ ',' :: dat).takeWhile
      (fun c => !(c == ';') && !(c == ',')) = mime := by
    apply takeWhile_stops
    · intro c hc
      rcases hmc c hc with ⟨h1, h2⟩
      simp [h1, h2]
    · intro y hy
      simp at hy
      simp [← hy]
  rw [htake, List.drop_left]
  have hb64 : startsWithCI b64Tag (',' :: dat) = false := by
    have h1 : (toLowerAscii ',' == ';') = false := by decide
    rw [show b64Tag = ';' :: "base64".data from rfl]
    simp [startsWithCI, h1]
  rw [hb64]
  have hall : dat.all (fun c => !(c == '\n')) = true := by
    rw [List.all_eq_true]
    intro c hc
    have : c ≠ '\n' := fun he => hd (he ▸ hc)
    simp [this]
  have hne : mime.isEmpty = false := by
    cases mime with
    | nil => exact absurd rfl hm
    | cons c cs => rfl
  simp [hall, hne]

/-- A fetch oracle that always fails; concrete instances below never reach
the network path. -/
def fetchNone : List Char → Except FetchFail (List Nat × Option (List Char)) :=
  fun _ => .error ⟨0⟩

instance {ε α : Type} [DecidableEq ε] [DecidableEq α] : DecidableEq (Except ε α) :=
  fun a b =>
    match a, b with
    | .ok x, .ok y =>
        if h : x = y then .isTrue (congrArg Except.ok h)
        else .isFalse (fun he => h (Except.ok.inj he))
    | .error x, .error y =>
        if h : x = y then .isTrue (congrArg Except.error h)
        else .isFalse (fun he => h (Except.error.inj he))
    | .ok _, .error _ => .isFalse (fun he => Except.noConfusion he)
    | .error _, .ok _ => .isFalse (fun he => Except.noConfusion he)

/-! ## Branch lemmas for the resolver -/

theorem resolve_url_dataCase
    (fetch : List Char → Except FetchFail (List Nat × Option (List Char)))
    (u : List Char) (hne : u ≠ []) (hsw : startsWithStr dataColon u = true) :
    resolveImageBufferAndExt fetch { url := some u } =
      match parseDataUrl u with
      | .ok (buf, mime) => .ok (buf, resolveExt mime none)
      | .error e => .error e := by
  unfold resolveImageBufferAndExt
  simp [truthy, List.isEmpty_eq_false.mpr hne, hsw]

theorem resolve_base64Case
    (fetch : List Char → Except FetchFail (List Nat × Option (List Char)))
    (s : List Char) (mt ct : Option (List Char)) (hne : s ≠ []) :
    resolveImageBufferAndExt fetch { base64 := some s, mimeType := mt, contentType := ct } =
      .ok (base64Decode (stripDataHeader s), resolveExt (nullishOr mt ct) none) := by
  unfold resolveImageBufferAndExt
  simp [truthy, List.isEmpty_eq_false.mpr hne, nullishOr]

theorem resolve_bytesCase
    (fetch : List Char → Except FetchFail (List Nat × Option (List Char)))
    (bs : List Nat) (mt ct : Option (List Char)) :
    resolveImageBufferAndExt fetch { bytes := some bs, mimeType := mt, contentType := ct } =
      .ok (bs, resolveExt (nullishOr mt ct) none) := by
  unfold resolveImageBufferAndExt
  simp [truthy]

theorem charOfVal_safe (v : Nat) :
    charOfVal v ≠ ';' ∧ charOfVal v ≠ ',' ∧ charOfVal v ≠ '\n' := by
  by_cases h : v < 64
  · have hall : ∀ w, w < 64 → charOfVal w ≠ ';' ∧ charOfVal w ≠ ',' ∧ charOfVal w ≠ '\n' := by
      decide
    exact hall v h
  · have he : charOfVal v = '=' := by
      unfold charOfVal
      apply List.getD_eq_default
      have : b64Alphabet.length = 64 := rfl
      omega
    rw [he]
    refine ⟨by decide, by decide, by decide⟩

theorem base64Encode_safe (bs : List Nat) :
    ∀ c ∈ base64Encode bs, c ≠ ';' ∧ c ≠ ',' ∧ c ≠ '\n' := by
  intro c hc
  unfold base64Encode at hc
  rw [List.mem_append] at hc
  rcases hc with hc | hc
  · rw [List.mem_map] at hc
    rcases hc with ⟨v, _, hv⟩
    rw [← hv]
    exact charOfVal_safe v
  · unfold base64PadFor at hc
    have : c = '=' := by
      revert hc
      split <;> simp_all
    rw [this]
    refine ⟨by decide, by decide, by decide⟩

/-- C6.  Data-URL parsing follows the shape `data:[<mime>][;base64],<data>`:
with the `;base64` marker the bytes are the base64 decoding of the data
part, without it they are the UTF-8 bytes of the percent-decoded data
part, and a string that does not match the shape fails with the
invalid-data-URL error. -/
theorem c6_data_url_parsing :
    (∀ mime dat, mime ≠ [] → (∀ c ∈ mime, c ≠ ';' ∧ c ≠ ',') → '\n' ∉ dat →
      parseDataUrl (dataColon ++ mime ++ b64Tag ++ ',' :: dat) =
        .ok (base64Decode dat, some mime)) ∧
    (∀ mime dat bs, mime ≠ [] → (∀ c ∈ mime, c ≠ ';' ∧ c ≠ ',') → '\n' ∉ dat →
      decodeURIComponentBytes dat = some bs →
      parseDataUrl (dataColon ++ mime ++ ',' :: dat) = .ok (bs, some mime)) ∧
    (∀ u, dataUrlMatch u = none → parseDataUrl u = .error .invalidDataUrl) := by
  refine ⟨?_, ?_, ?_⟩
  · intro mime dat hm hmc hd
    unfold parseDataUrl
    rw [dataUrlMatch_b64 mime dat hm hmc hd]
  · intro mime dat bs hm hmc hd hdec
    unfold parseDataUrl
    rw [dataUrlMatch_plain mime dat hm hmc hd]
    simp [hdec]
  · intro u h
    unfold parseDataUrl
    rw [h]

/-- Witness for C6 at concrete inputs: a base64 data URL, a percent-encoded
textual data URL, and a malformed string. -/
theorem c6_data_url_parsing_witness :
    parseDataUrl "data:image/png;base64,AAAA".data = .ok ([0, 0, 0], some "image/png".data) ∧
    parseDataUrl "data:text/plain,hi%20x".data = .ok ([104, 105, 32, 120], some "text/plain".data) ∧
    parseDataUrl "data:oops".data = .error .invalidDataUrl := by
  refine ⟨?_, ?_, c6_data_url_parsing.2.2 "data:oops".data (by decide)⟩
  · have h := c6_data_url_parsing.1 "image/png".data "AAAA".data (by decide) (by decide)
      (by decide)
    rw [show ("data:image/png;base64,AAAA".data : List Char) =
      dataColon ++ "image/png".data ++ b64Tag ++ ',' :: "AAAA".data from rfl, h,
      show base64Decode "AAAA".data = [0, 0, 0] from by decide]
  · have h := c6_data_url_parsing.2.1 "text/plain".data "hi%20x".data [104, 105, 32, 120]
      (by decide) (by decide) (by decide) (by decide)
    rw [show ("data:text/plain,hi%20x".data : List Char) =
      dataColon ++ "text/plain".data ++ ',' :: "hi%20x".data from rfl, h]

/-- C8.  Round-trip: resolving a reference built from
`data:image/png;base64,` followed by the standard base64 encoding of a
byte buffer returns exactly that buffer with extension `png`. -/
theorem c8_base64_png_roundtrip
    (fetch : List Char → Except FetchFail (List Nat × Option (List Char)))
    (bs : List Nat) (h : ∀ x ∈ bs, x < 256) :
    resolveImageBufferAndExt fetch
      { url := some ("data:image/png;base64,".data ++ base64Encode bs) } =
      .ok (bs, "png".data) := by
  have hshape : "data:image/png;base64,".data ++ base64Encode bs =
      dataColon ++ "image/png".data ++ b64Tag ++ ',' :: base64Encode bs := by
    rw [show ("data:image/png;base64,".data : List Char) =
      dataColon ++ "image/png".data ++ b64Tag ++ [','] from rfl]
    simp [List.append_assoc]
  have hnl : '\n' ∉ base64Encode bs := by
    intro hmem
    exact (base64Encode_safe bs '\n' hmem).2.2 rfl
  have hne : "data:image/png;base64,".data ++ base64Encode bs ≠ [] := by
    intro he
    have := congrArg List.length he
    simp at this
  have hsw : startsWithStr dataColon
      ("data:image/png;base64,".data ++ base64Encode bs) = true := by
    rw [show ("data:image/png;base64,".data : List Char) = dataColon ++ "image/png;base64,".data
      from rfl, List.append_assoc]
    exact startsWithStr_append _ _
  have hparse : parseDataUrl ("data:image/png;base64,".data ++ base64Encode bs) =
      .ok (bs, some "image/png".data) := by
    rw [hshape]
    unfold parseDataUrl
    rw [dataUrlMatch_b64 "image/png".data (base64Encode bs) (by decide) (by decide) hnl]
    simp [base64_roundtrip bs h]
  rw [resolve_url_dataCase fetch _ hne hsw, hparse]
  simp [show resolveExt (some "image/png".data) none = "png".data from by decide]

/-- Witness for C8 at the four-byte PNG magic prefix. -/
theorem c8_base64_png_roundtrip_witness :
    resolveImageBufferAndExt fetchNone
      { url := some ("data:image/png;base64,".data ++ base64Encode [137, 80, 78, 71]) } =
      .ok ([137, 80, 78, 71], "png".data) :=
  c8_base64_png_roundtrip fetchNone [137, 80, 78, 71] (by decide)

/-! ## Header stripping on base64 payloads -/

theorem lastMarkerSplit_none (l : List Char) (h : ';' ∉ l) : lastMarkerSplit l = none := by
  induction l with
  | nil => rfl
  | cons c cs ih =>
      have hc : c ≠ ';' := fun he => h (by simp [he])
      have hsw : startsWithStr (b64Tag ++ [',']) (c :: cs) = false := by
        rw [show b64Tag ++ [','] = ';' :: "base64,".data from rfl]
        simp [startsWithStr, Ne.symm hc]
      have hcs : lastMarkerSplit cs = none := ih (fun hm => h (by simp [hm]))
      simp [lastMarkerSplit, hsw, hcs]

theorem lastMarkerSplit_cons_match (cs : List Char)
    (hsw : startsWithStr (b64Tag ++ [',']) (';' :: cs) = true)
    (hdeep : lastMarkerSplit cs = none) :
    lastMarkerSplit (';' :: cs) = some ((';' :: cs).drop 8) := by
  simp only [lastMarkerSplit]
  rw [hsw, hdeep]
  simp

theorem lastMarkerSplit_append (m p : List Char) (hm : '\n' ∉ m) (hp : ';' ∉ p) :
    lastMarkerSplit (m ++ (b64Tag ++ ',' :: p)) = some p := by
  induction m with
  | nil =>
      rw [List.nil_append]
      have hexp : b64Tag ++ ',' :: p = ';' :: ("base64".data ++ ',' :: p) := rfl
      rw [hexp]
      have hsw : startsWithStr (b64Tag ++ [','])
          (';' :: ("base64".data ++ ',' :: p)) = true := by
        rw [show (';' : Char) :: ("base64".data ++ ',' :: p) =
          (b64Tag ++ [',']) ++ p from rfl]
        exact startsWithStr_append _ _
      have hdeep : lastMarkerSplit ("base64".data ++ ',' :: p) = none := by
        apply lastMarkerSplit_none
        intro hmem
        rw [List.mem_append] at hmem
        rcases hmem with hmem | hmem
        · revert hmem; decide
        · rw [List.mem_cons] at hmem
          rcases hmem with hmem | hmem
          · exact absurd hmem (by decide)
          · exact hp hmem
      have hdrop : (';' :: ("base64".data ++ ',' :: p)).drop 8 = p := by
        rw [show (';' : Char) :: ("base64".data ++ ',' :: p) =
          (b64Tag ++ [',']) ++ p from rfl,
          show (8 : Nat) = (b64Tag ++ [',']).length from rfl, List.drop_left]
      rw [lastMarkerSplit_cons_match _ hsw hdeep, hdrop]
  | cons c m' ih =>
      have hc : c ≠ '\n' := fun he => hm (by simp [he])
      have hih := ih (fun hmem => hm (by simp [hmem]))
      rw [List.cons_append]
      simp [lastMarkerSplit, hc, hih]

theorem nullishOr_none (a : Option (List Char)) : nullishOr a none = a := by
  cases a <;> rfl

theorem stripDataHeader_full (mime payload : List Char)
    (hm : '\n' ∉ mime) (hp : ';' ∉ payload) :
    stripDataHeader (dataColon ++ mime ++ b64Tag ++ ',' :: payload) = payload := by
  unfold stripDataHeader
  simp only [List.append_assoc]
  rw [startsWithStr_append dataColon _]
  simp only [if_pos rfl, show (5 : Nat) = dataColon.length from rfl, List.drop_left]
  rw [lastMarkerSplit_append mime payload hm hp]
  simp

/-- C5 (amended).  For a base64-payload reference carrying a
`data:<mime>;base64,` header, resolution strips the header before
decoding, but the mime segment of the header is *discarded*: the extension
comes only from the explicit `mimeType`/`contentType` hint fields. -/
theorem c5_strip_discards_mime
    (fetch : List Char → Except FetchFail (List Nat × Option (List Char)))
    (mime payload : List Char) (hint : Option (List Char))
    (hm : '\n' ∉ mime) (hp : ';' ∉ payload) :
    resolveImageBufferAndExt fetch
      { base64 := some (dataColon ++ mime ++ b64Tag ++ ',' :: payload),
        mimeType := hint } =
      .ok (base64Decode payload, resolveExt hint none) := by
  have hne : dataColon ++ mime ++ b64Tag ++ ',' :: payload ≠ [] := by
    intro he
    have := congrArg List.length he
    simp at this
  rw [resolve_base64Case fetch _ hint none hne, nullishOr_none,
    stripDataHeader_full mime payload hm hp]

/-- Witness for C5's amended statement: the embedded `image/gif` mime is
dropped, an explicit `image/webp` hint decides the extension instead. -/
theorem c5_strip_discards_mime_witness :
    resolveImageBufferAndExt fetchNone
      { base64 := some (dataColon ++ "image/gif".data ++ b64Tag ++ ',' :: "AAAA".data),
        mimeType := some "image/webp".data } =
      .ok ([0, 0, 0], "webp".data) := by
  have h := c5_strip_discards_mime fetchNone "image/gif".data "AAAA".data
    (some "image/webp".data) (by decide) (by decide)
  rw [h, show base64Decode "AAAA".data = [0, 0, 0] from by decide,
    show resolveExt (some "image/webp".data) none = "webp".data from by decide]

/-- Counterexample to C5 as stated: a reference whose base64 payload
carries a `data:image/gif;base64,` header resolves with extension `png`,
not the `gif` the captured mime segment would give — the mime segment of
the stripped header is not used as a type hint. -/
theorem c5_counterexample :
    resolveImageBufferAndExt fetchNone
      { base64 := some "data:image/gif;base64,AAAA".data } = .ok ([0, 0, 0], "png".data) ∧
    mimeToExt (some "image/gif".data) = some "gif".data ∧
    ("png".data : List Char) ≠ "gif".data := by
  refine ⟨by decide, by decide, by decide⟩

/-! ## Batch persistence behaviour under partial failure -/

/-- C1 (behaviour of the code at the spec's failing input).  Three
references, the second malformed (`data:oops` raises the invalid-data-URL
error): `saveImages` skips the failed slot entirely and returns a
*compacted* two-element list — not a three-slot list with an empty middle
slot.  The surviving filenames still carry their input indices (`_1`,
`_3`), but the second returned entry occupies list position 1. -/
theorem c1_partial_failure_compacts :
    saveImages fetchNone (fun _ => "T".data) []
      [{ url := some "data:image/png;base64,AAAA".data },
       { url := some "data:oops".data },
       { url := some "data:image/png;base64,AAAB".data }] "img".data =
      ["/generated_images/img_T_1.png".data, "/generated_images/img_T_3.png".data] ∧
    (saveImages fetchNone (fun _ => "T".data) []
      [{ url := some "data:image/png;base64,AAAA".data },
       { url := some "data:oops".data },
       { url := some "data:image/png;base64,AAAB".data }] "img".data).length = 2 := by
  refine ⟨by decide, by decide⟩

/-! ## Size reporting of inline base64 images -/

set_option maxRecDepth 8000 in
/-- Counterexample to C9 as stated: for the inline base64 image
`data:image/png;base64,` followed by a 502-character payload, the code
reports `Math.round(524 / 1024) = 1` (the 22-character header is counted),
while `round(L / 1024)` for the payload length `L = 502` is `0` — the
reported size is computed from the whole data-URL string, not from the
base64 payload's encoded length. -/
theorem c9_counterexample :
    geminiImageReportSize ("data:image/png;base64,".data ++ List.replicate 502 'A') =
      some 1 ∧
    round (((List.replicate 502 'A').length : ℚ) / 1024) = (0 : ℤ) ∧
    ((1 : ℤ) ≠ 0) := by
  refine ⟨by decide, ?_, by decide⟩
  rw [round_eq,
    show ((List.replicate 502 'A').length : ℚ) = 502 from by
      rw [List.length_replicate]; norm_num,
    show (502 : ℚ) / 1024 + 1 / 2 = 1014 / 1024 from by norm_num,
    Int.floor_eq_zero_iff]
  constructor <;> norm_num

/-- C9 (amended).  For every inline base64 image reported in a normalized
chat result, the reported sizeKB equals `round(L / 1024)` where `L` is the
length of the *entire data-URL string* (header included) — an encoded text
length, not the decoded byte length and not the bare payload length. -/
theorem c9_reported_size (u : List Char) (n : Nat)
    (h : geminiImageReportSize u = some n) :
    (n : ℤ) = round ((u.length : ℚ) / 1024) := by
  unfold geminiImageReportSize at h
  split_ifs at h
  replace h := Option.some.inj h
  rw [← h]
  have hr : round ((u.length : ℚ) / 1024) = ((u.length + 512) / 1024 : ℕ) := by
    rw [round_eq]
    have h2 : ((u.length : Nat) : ℚ) / 1024 + 1 / 2 =
        ((u.length + 512 : ℕ) : ℚ) / 1024 := by push_cast; ring
    rw [h2, ← Int.natCast_floor_eq_floor (by positivity), Nat.floor_div_ofNat,
      Nat.floor_natCast]
  rw [hr]
  rfl

set_option maxRecDepth 8000 in
/-- Witness for C9's amended statement: a data URL of total length 1022
(`data:image/png;base64,` plus a 1000-character payload) reports size 1,
which is `round(1022 / 1024)`. -/
theorem c9_reported_size_witness :
    ((1 : Nat) : ℤ) =
      round ((("data:image/png;base64,".data ++ List.replicate 1000 'B').length : ℚ)
        / 1024) :=
  c9_reported_size ("data:image/png;base64,".data ++ List.replicate 1000 'B') 1
    (by decide)

/-! ## Extension allow-list membership -/

theorem lookup_mem_values {α β : Type} [BEq α] :
    ∀ (l : List (α × β)) (k : α) (v : β), l.lookup k = some v → v ∈ l.map Prod.snd := by
  intro l
  induction l with
  | nil => intro k v h; simp [List.lookup] at h
  | cons p t ih =>
      intro k v h
      cases p with
      | mk k' v' =>
          rw [List.lookup] at h
          by_cases hbeq : k == k'
          · rw [hbeq] at h
            simp at h
            simp [h]
          · rw [Bool.not_eq_true] at hbeq
            rw [hbeq] at h
            have := ih k v h
            simp [this]

theorem mimeToExt_mem (m : Option (List Char)) (x : List Char)
    (h : mimeToExt m = some x) : x ∈ extAllowList := by
  cases m with
  | none => simp [mimeToExt] at h
  | some s =>
      simp only [mimeToExt] at h
      split_ifs at h
      have hv := lookup_mem_values mimeMap _ x h
      have hsub : ∀ v ∈ mimeMap.map Prod.snd, v ∈ extAllowList := by decide
      exact hsub x hv

theorem extFromUrl_mem (u : List Char) (x : List Char)
    (h : extFromUrl u = some x) : x ∈ extAllowList := by
  unfold extFromUrl at h
  split at h
  · simp at h
  · dsimp only at h
    split_ifs at h with h1 h2 h3
    · simp only [Option.some.injEq] at h
      rw [← h]
      decide
    · simp only [Option.some.injEq] at h
      rw [← h]
      exact List.elem_iff.mp h2

/-- The three-tier fallback applied to any `resolveExt` output whose URL
guess, when present, already lies in the allow-list. -/
theorem resolveExt_mem (m g : Option (List Char))
    (hg : g = none ∨ ∃ x, g = some x ∧ x ∈ extAllowList) :
    resolveExt m g ∈ extAllowList := by
  unfold resolveExt
  cases hmx : mimeToExt m with
  | some x => exact mimeToExt_mem m x hmx
  | none =>
      rcases hg with hg | ⟨x, hg, hx⟩
      · rw [hg]
        decide
      · rw [hg]
        exact hx

/-- C2.  The final extension is chosen by the three-tier fallback — the
mime mapping wins; when it yields nothing, the URL-suffix guess; when that
too is absent, `png` — and every extension a successful resolution
returns is a member of the fixed allow-list. -/
theorem c2_extension_fallback :
    (∀ (fetch : List Char → Except FetchFail (List Nat × Option (List Char)))
       (img : ImageInput) (bs : List Nat) (e : List Char),
       resolveImageBufferAndExt fetch img = .ok (bs, e) → e ∈ extAllowList) ∧
    (∀ m g x, mimeToExt m = some x → resolveExt m g = x) ∧
    (∀ m u, mimeToExt m = none → resolveExt m (some u) = u) ∧
    (∀ m, mimeToExt m = none → resolveExt m none = "png".data) := by
  refine ⟨?_, ?_, ?_, ?_⟩
  · intro fetch img bs e h
    unfold resolveImageBufferAndExt at h
    dsimp only at h
    split_ifs at h with h1 h2 h3
    · -- url branch, data URL
      split at h
      next buf mime heq =>
        simp only [Except.ok.injEq, Prod.mk.injEq] at h
        rw [← h.2]
        exact resolveExt_mem mime none (Or.inl rfl)
      next e' heq => simp at h
    · -- url branch, network fetch
      split at h
      next buf ctype heq =>
        simp only [Except.ok.injEq, Prod.mk.injEq] at h
        rw [← h.2]
        apply resolveExt_mem
        cases hext : extFromUrl (img.url.getD []) with
        | none => exact Or.inl rfl
        | some x => exact Or.inr ⟨x, rfl, extFromUrl_mem _ x hext⟩
      next f heq => simp at h
    · -- base64 branch
      simp only [Except.ok.injEq, Prod.mk.injEq] at h
      rw [← h.2]
      exact resolveExt_mem _ none (Or.inl rfl)
    · -- bytes branch
      split at h
      next bs' heq =>
        simp only [Except.ok.injEq, Prod.mk.injEq] at h
        rw [← h.2]
        exact resolveExt_mem _ none (Or.inl rfl)
      next heq => simp at h
  · intro m g x h
    unfold resolveExt
    rw [h]
  · intro m u h
    unfold resolveExt
    rw [h]
  · intro m h
    unfold resolveExt
    rw [h]

/-- Witness for C2: the spec's mime-priority test (`.txt` URL suffix loses
to `image/jpeg`), the URL-suffix tier, the `png` default, and allow-list
membership for a concrete resolution. -/
theorem c2_extension_fallback_witness :
    resolveExt (some "image/jpeg".data) (some "txt".data) = "jpg".data ∧
    resolveExt none (some "gif".data) = "gif".data ∧
    resolveExt none none = "png".data ∧
    ("png".data : List Char) ∈ extAllowList :=
  ⟨c2_extension_fallback.2.1 (some "image/jpeg".data) (some "txt".data) "jpg".data (by decide),
   c2_extension_fallback.2.2.1 none "gif".data (by decide),
   c2_extension_fallback.2.2.2 none (by decide),
   c2_extension_fallback.1 fetchNone { bytes := some [] } [] "png".data (by decide)⟩

/-! ## Lemmas about the content-scanning extractor -/

theorem hasSub_false_head (n : List Char) :
    ∀ l, hasSub n l = false → startsWithStr n l = false := by
  intro l h
  cases l with
  | nil =>
      rw [hasSub] at h
      cases n with
      | nil => simp [List.isEmpty] at h
      | cons p ps => rfl
  | cons c cs =>
      rw [hasSub, Bool.or_eq_false_iff] at h
      exact h.1

theorem hasSub_false_tail (n : List Char) (c : Char) (cs : List Char)
    (h : hasSub n (c :: cs) = false) : hasSub n cs = false := by
  rw [hasSub, Bool.or_eq_false_iff] at h
  exact h.2

theorem startsWithStr_weaken (p q : List Char) :
    ∀ s, startsWithStr (p ++ q) s = true → startsWithStr p s = true := by
  induction p with
  | nil => intro s _; rfl
  | cons a ps ih =>
      intro s h
      cases s with
      | nil => simp [startsWithStr] at h
      | cons c cs =>
          rw [List.cons_append, startsWithStr, Bool.and_eq_true] at h
          rw [startsWithStr, Bool.and_eq_true]
          exact ⟨h.1, ih cs h.2⟩

theorem starts_http_of_https_append (r : List Char) :
    startsWithStr httpStr (httpsSlashes ++ r) = true := by
  rw [show httpsSlashes = httpStr ++ "s://".data from rfl, List.append_assoc]
  exact startsWithStr_append _ _

theorem starts_http_of_http_append (r : List Char) :
    startsWithStr httpStr (httpSlashes ++ r) = true := by
  rw [show httpSlashes = httpStr ++ "://".data from rfl, List.append_assoc]
  exact startsWithStr_append _ _

theorem matchHttpAt_starts (l u : List Char) (h : matchHttpAt l = some u) :
    startsWithStr httpStr u = true := by
  unfold matchHttpAt at h
  dsimp only at h
  split_ifs at h
  · replace h := Option.some.inj h
    rw [← h]
    exact starts_http_of_https_append _
  · replace h := Option.some.inj h
    rw [← h]
    exact starts_http_of_http_append _

theorem searchUrl_starts : ∀ (l u : List Char), searchUrl l = some u →
    startsWithStr httpStr u = true
  | [], u => by simp [searchUrl]
  | c :: cs, u => by
      intro h
      rw [searchUrl, orElse_eq_some_iff] at h
      rcases h with h | ⟨_, h⟩
      · exact matchHttpAt_starts _ u h
      · exact searchUrl_starts cs u h

theorem mdCapture_starts (l u : List Char) (h : mdCapture l = some u) :
    startsWithStr httpStr u = true := by
  unfold mdCapture at h
  dsimp only at h
  split_ifs at h
  · split at h
    next => replace h := Option.some.inj h; rw [← h]; exact starts_http_of_https_append _
    next => simp at h
  · split at h
    next => replace h := Option.some.inj h; rw [← h]; exact starts_http_of_http_append _
    next => simp at h

theorem mdTryAfterBracket_starts : ∀ (l u : List Char),
    mdTryAfterBracket l = some u → startsWithStr httpStr u = true
  | [], u => by simp [mdTryAfterBracket]
  | c :: cs, u => by
      intro h
      rw [mdTryAfterBracket, orElse_eq_some_iff] at h
      rcases h with h | ⟨_, h⟩
      · split at h
        next rest heq => exact mdCapture_starts rest u h
        next => simp at h
      · split_ifs at h
        exact mdTryAfterBracket_starts cs u h

theorem mdSearch_starts : ∀ (l u : List Char),
    mdSearch l = some u → startsWithStr httpStr u = true
  | [], u => by simp [mdSearch]
  | c :: cs, u => by
      intro h
      rw [mdSearch, orElse_eq_some_iff] at h
      rcases h with h | ⟨_, h⟩
      · split at h
        next rest heq => exact mdTryAfterBracket_starts rest u h
        next => simp at h
      · exact mdSearch_starts cs u h

theorem matchHttpAt_none (l : List Char)
    (h1 : startsWithStr httpsSlashes l = false)
    (h2 : startsWithStr httpSlashes l = false) : matchHttpAt l = none := by
  unfold matchHttpAt
  dsimp only
  rw [h1, h2]
  simp

theorem searchUrl_none : ∀ l : List Char, hasSub httpsSlashes l = false →
    hasSub httpSlashes l = false → searchUrl l = none
  | [] => by intro _ _; rfl
  | c :: cs => by
      intro h1 h2
      rw [searchUrl,
        matchHttpAt_none _ (hasSub_false_head _ _ h1) (hasSub_false_head _ _ h2),
        searchUrl_none cs (hasSub_false_tail _ _ _ h1) (hasSub_false_tail _ _ _ h2)]
      rfl

theorem mdCapture_none (l : List Char)
    (h1 : startsWithStr httpsSlashes l = false)
    (h2 : startsWithStr httpSlashes l = false) : mdCapture l = none := by
  unfold mdCapture
  dsimp only
  rw [h1, h2]
  simp

theorem mdTryAfterBracket_none : ∀ l : List Char, hasSub httpsSlashes l = false →
    hasSub httpSlashes l = false → mdTryAfterBracket l = none
  | [] => by intro _ _; rfl
  | c :: cs => by
      intro h1 h2
      rw [mdTryAfterBracket]
      have hm : (match c :: cs with
          | ']' :: '(' :: rest => mdCapture rest
          | _ => none) = (none : Option (List Char)) := by
        split
        next rest heq =>
            rw [List.cons.injEq] at heq
            have hcs : cs = '(' :: rest := heq.2
            have h1r : hasSub httpsSlashes rest = false := by
              have := hasSub_false_tail _ _ _ h1
              rw [hcs] at this
              exact hasSub_false_tail _ _ _ this
            have h2r : hasSub httpSlashes rest = false := by
              have := hasSub_false_tail _ _ _ h2
              rw [hcs] at this
              exact hasSub_false_tail _ _ _ this
            exact mdCapture_none rest (hasSub_false_head _ _ h1r) (hasSub_false_head _ _ h2r)
        next => rfl
      rw [hm]
      have hrec := mdTryAfterBracket_none cs (hasSub_false_tail _ _ _ h1)
        (hasSub_false_tail _ _ _ h2)
      rw [hrec]
      split_ifs <;> rfl

theorem mdSearch_none : ∀ l : List Char, hasSub httpsSlashes l = false →
    hasSub httpSlashes l = false → mdSearch l = none
  | [] => by intro _ _; rfl
  | c :: cs => by
      intro h1 h2
      rw [mdSearch]
      have hm : (match c :: cs with
          | '!' :: '[' :: rest => mdTryAfterBracket rest
          | _ => none) = (none : Option (List Char)) := by
        split
        next rest heq =>
            rw [List.cons.injEq] at heq
            have hcs : cs = '[' :: rest := heq.2
            have h1r : hasSub httpsSlashes rest = false := by
              have := hasSub_false_tail _ _ _ h1
              rw [hcs] at this
              exact hasSub_false_tail _ _ _ this
            have h2r : hasSub httpSlashes rest = false := by
              have := hasSub_false_tail _ _ _ h2
              rw [hcs] at this
              exact hasSub_false_tail _ _ _ this
            exact mdTryAfterBracket_none rest h1r h2r
        next => rfl
      rw [hm, mdSearch_none cs (hasSub_false_tail _ _ _ h1) (hasSub_false_tail _ _ _ h2)]
      rfl

/-! ## C3: structured images vs. content scanning -/

/-- Counterexample to C3 as stated: with a non-empty `images` array whose
first entry carries an *empty* url, tier 1 yields nothing, yet the
content-scanning tiers are never consulted — the same content alone would
have been taken whole by tier 2.  So "each tier checked only if every
earlier tier yields nothing" is false. -/
theorem c3_counterexample :
    extractImageUrl (some [{ image_url := some { url := some [] } }])
      "http://example.com/a.png".data = none ∧
    extractImageUrl none "http://example.com/a.png".data =
      some "http://example.com/a.png".data := by
  refine ⟨by decide, by decide⟩

/-- C3 (amended).  When the `images` array is present and non-empty its
first element is authoritative: the result is `images[0].image_url.url`
when present and non-empty (and nothing otherwise), independent of the
message content; the content tiers 2-5 run only when the array is absent
or empty.  In particular a structured entry beats inline markdown. -/
theorem c3_images_authoritative :
    (∀ (img : GeminiImage) (rest : List GeminiImage) (c c' : List Char),
      extractImageUrl (some (img :: rest)) c = extractImageUrl (some (img :: rest)) c') ∧
    (∀ (u c : List Char), u ≠ [] →
      extractImageUrl (some [{ image_url := some { url := some u } }]) c = some u) ∧
    (∀ c : List Char, extractImageUrl (some []) c = extractImageUrl none c) := by
  refine ⟨fun img rest c c' => rfl, ?_, fun c => rfl⟩
  intro u c hu
  simp only [extractImageUrl]
  rw [List.isEmpty_eq_false.mpr hu]
  simp

/-- Witness for C3's amended statement: the spec's scenario — a structured
entry together with inline markdown pointing elsewhere selects the
structured entry. -/
theorem c3_images_authoritative_witness :
    extractImageUrl (some [{ image_url := some { url := some "http://a.b/s.png".data } }])
      "![x](http://other.example/t.png)".data = some "http://a.b/s.png".data :=
  c3_images_authoritative.2.1 "http://a.b/s.png".data
    "![x](http://other.example/t.png)".data (by decide)

/-! ## C4: textual non-image reply is a success -/

/-- C4.  For a chat body with no structured images whose content is plain
text — it does not begin with `http` or `data:image` and contains no
`http://` or `https://` token (hence no URL and no markdown image link) —
extraction yields nothing and the normalized result still reports
`success: true` with the raw content and no image or saved file. -/
theorem c4_text_reply_success
    (fetch : List Char → Except FetchFail (List Nat × Option (List Char)))
    (now : Nat → List Char) (cwd : List Char)
    (imgs : Option (List GeminiImage)) (content : List Char)
    (st : Bool) (fn : Option (List Char))
    (himgs : imgs = none ∨ imgs = some [])
    (h1 : hasSub httpsSlashes content = false)
    (h2 : hasSub httpSlashes content = false)
    (h3 : startsWithStr httpStr content = false)
    (h4 : startsWithStr dataImageStr content = false) :
    handleGeminiResponse fetch now cwd imgs content st fn =
      { success := true, image_url := none, saved_file := none,
        raw_response := content } := by
  have hext : extractImageUrl imgs content = none := by
    have hscan : extractImageUrl none content = none := by
      simp only [extractImageUrl]
      rw [h3, h4]
      simp only [Bool.false_eq_true, if_false]
      by_cases hg : (hasSub httpStr content || hasSub "![".data content) = true
      · rw [if_pos hg, mdSearch_none content h1 h2, searchUrl_none content h1 h2]
      · rw [if_neg hg]
    rcases himgs with himgs | himgs <;> rw [himgs]
    · exact hscan
    · exact hscan
  unfold handleGeminiResponse
  rw [hext]
  cases st <;> rfl

/-- Witness for C4 at a concrete plain-text reply. -/
theorem c4_text_reply_success_witness :
    handleGeminiResponse fetchNone (fun _ => "T".data) [] none
      "Sorry, I can only describe the scene in words.".data true (some "f".data) =
      { success := true, image_url := none, saved_file := none,
        raw_response := "Sorry, I can only describe the scene in words.".data } :=
  c4_text_reply_success fetchNone (fun _ => "T".data) [] none _ true (some "f".data)
    (Or.inl rfl) (by decide) (by decide) (by decide) (by decide)

/-! ## C10: reachability of the raw-base64 save branch -/

/-- Counterexample to C10 as stated: the structured tier passes through an
arbitrary non-empty string; a raw base64 value in `images[0].image_url.url`
is extracted as-is, starts with neither `http` nor `data:image`, and the
save-path classification then takes the `{ base64: ... }` branch — that
branch is reachable. -/
theorem c10_counterexample :
    extractImageUrl (some [{ image_url := some { url := some "iVBOR".data } }]) [] =
      some "iVBOR".data ∧
    startsWithStr httpStr "iVBOR".data = false ∧
    startsWithStr dataImageStr "iVBOR".data = false ∧
    classifyForSave "iVBOR".data = { base64 := some "iVBOR".data } := by
  refine ⟨by decide, by decide, by decide, by decide⟩

/-- C10 (amended).  Every image reference produced by the content-scanning
tiers (images array absent or empty) starts with `http` or `data:image`,
so those references always enter the resolver through the `{ url }`
variant; only the structured tier can pass through an arbitrary string and
reach the `{ base64 }` branch. -/
theorem c10_scan_products_are_urls
    (imgs : Option (List GeminiImage)) (content u : List Char)
    (himgs : imgs = none ∨ imgs = some [])
    (h : extractImageUrl imgs content = some u) :
    (startsWithStr httpStr u = true ∨ startsWithStr dataImageStr u = true) ∧
    classifyForSave u = { url := some u } := by
  have hscan : extractImageUrl none content = some u := by
    rcases himgs with himgs | himgs <;> rw [himgs] at h
    · exact h
    · exact h
  have hmain : startsWithStr httpStr u = true ∨ startsWithStr dataImageStr u = true := by
    simp only [extractImageUrl] at hscan
    split_ifs at hscan with hc1 hc2 hc3
    · replace hscan := Option.some.inj hscan
      rw [← hscan]
      exact Or.inl hc1
    · replace hscan := Option.some.inj hscan
      rw [← hscan]
      exact Or.inr hc2
    · split at hscan
      next u' heq =>
          replace hscan := Option.some.inj hscan
          rw [← hscan]
          exact Or.inl (mdSearch_starts content u' heq)
      next heq => exact Or.inl (searchUrl_starts content u hscan)
  refine ⟨hmain, ?_⟩
  unfold classifyForSave
  rcases hmain with hmain | hmain
  · rw [hmain]
    simp
  · have : startsWithStr dataColon u = true := by
      have hd : dataImageStr = dataColon ++ "image".data := rfl
      rw [hd] at hmain
      exact startsWithStr_weaken dataColon "image".data u hmain
    rw [this]
    simp

/-- Witness for C10's amended statement: a bare URL found by tier 5 starts
with `http` and is classified as a `{ url }` input. -/
theorem c10_scan_products_are_urls_witness :
    (startsWithStr httpStr "https://a.b/c.png".data = true ∨
     startsWithStr dataImageStr "https://a.b/c.png".data = true) ∧
    classifyForSave "https://a.b/c.png".data =
      { url := some "https://a.b/c.png".data } :=
  c10_scan_products_are_urls none "see https://a.b/c.png there".data
    "https://a.b/c.png".data (Or.inl rfl) (by decide)

/-! ## C7: filename sanitation -/

theorem collapseGo_chars : ∀ (b : Bool) (s : List Char),
    ∀ c ∈ collapseGo b s, allowedChar c = true
  | _, [] => by simp [collapseGo]
  | b, x :: xs => by
      intro c hc
      rw [collapseGo] at hc
      split_ifs at hc with h1 h2
      · rcases List.mem_cons.mp hc with hc | hc
        · rw [hc]; exact h1
        · exact collapseGo_chars false xs c hc
      · exact collapseGo_chars true xs c hc
      · rcases List.mem_cons.mp hc with hc | hc
        · rw [hc]; decide
        · exact collapseGo_chars true xs c hc

theorem collapseGo_skip_run : ∀ (ys zs : List Char),
    (∀ c ∈ ys, allowedChar c = false) →
    (∀ z, zs.head? = some z → allowedChar z = true) →
    collapseGo true (ys ++ zs) = collapseGo false zs
  | [], zs => by
      intro _ hz
      rw [List.nil_append]
      cases zs with
      | nil => rfl
      | cons z t =>
          have hzt : allowedChar z = true := hz z rfl
          rw [collapseGo, collapseGo, if_pos hzt, if_pos hzt]
  | y :: ys', zs => by
      intro hy hz
      rw [List.cons_append, collapseGo, if_neg (by simp [hy y (by simp)]), if_pos rfl]
      exact collapseGo_skip_run ys' zs (fun c hc => hy c (by simp [hc])) hz

theorem collapseGo_keeps_allowed : ∀ (xs rest : List Char),
    (∀ c ∈ xs, allowedChar c = true) →
    collapseGo false (xs ++ rest) = xs ++ collapseGo false rest
  | [], rest => by intro _; rfl
  | x :: xs', rest => by
      intro hx
      rw [List.cons_append, collapseGo, if_pos (hx x (by simp)), List.cons_append,
        collapseGo_keeps_allowed xs' rest (fun c hc => hx c (by simp [hc]))]

/-- C7 (amended).  The sanitizer replaces every *maximal run* of one or
more characters outside `[A-Za-z0-9_-]` with a single underscore and
truncates to 64 characters (so its output is within the length bound and
contains only allowed characters), and for a non-empty base name the
persisted filename has the form
`sanitize(baseName)_<timestamp>_<i+1>.<extension>`. -/
theorem c7_sanitizer :
    (∀ s : List Char, (sanitizeFilePart s).length ≤ 64) ∧
    (∀ (s : List Char) (c : Char), c ∈ sanitizeFilePart s → allowedChar c = true) ∧
    (∀ xs ys zs : List Char, (∀ c ∈ xs, allowedChar c = true) →
      (∀ c ∈ ys, allowedChar c = false) → ys ≠ [] →
      (∀ z, zs.head? = some z → allowedChar z = true) →
      collapseRuns (xs ++ (ys ++ zs)) = xs ++ '_' :: collapseRuns zs) ∧
    (∀ (fetch : List Char → Except FetchFail (List Nat × Option (List Char)))
       (base : List Char) (now : Nat → List Char) (cwd : List Char) (bs : List Nat),
      base ≠ [] →
      saveImages fetch now cwd [{ bytes := some bs }] base =
        [cwd ++ "/generated_images/".data ++ sanitizeFilePart base ++ "_".data ++
          tsRender (now 0) ++ "_".data ++ natDigits 1 ++ ".".data ++ "png".data]) := by
  refine ⟨?_, ?_, ?_, ?_⟩
  · intro s
    unfold sanitizeFilePart
    rw [List.length_take]
    exact min_le_left _ _
  · intro s c hc
    unfold sanitizeFilePart at hc
    exact collapseGo_chars false s c (List.mem_of_mem_take hc)
  · intro xs ys zs hxs hys hysne hzs
    unfold collapseRuns
    rw [collapseGo_keeps_allowed xs (ys ++ zs) hxs]
    cases ys with
    | nil => exact absurd rfl hysne
    | cons y ys' =>
        rw [List.cons_append, collapseGo, if_neg (by simp [hys y (by simp)]),
          if_neg (by simp), collapseGo_skip_run ys' zs (fun c hc => hys c (by simp [hc])) hzs]
  · intro fetch base now cwd bs hbase
    unfold saveImages saveImagesGo
    rw [resolve_bytesCase fetch bs none none]
    dsimp only
    rw [List.isEmpty_eq_false.mpr hbase]
    simp [saveImagesGo, show resolveExt (nullishOr none none) none = "png".data from rfl,
      List.append_assoc]

/-- Witness for C7's amended statement: one maximal two-character run
collapses to a single underscore, and a concrete bytes reference persists
under the documented filename shape. -/
theorem c7_sanitizer_witness :
    collapseRuns ("ab".data ++ ("!?".data ++ "cd".data)) =
      "ab".data ++ '_' :: collapseRuns "cd".data ∧
    saveImages fetchNone (fun _ => "T".data) [] [{ bytes := some [1] }]
      "img base".data = ["/generated_images/img_base_T_1.png".data] := by
  constructor
  · exact c7_sanitizer.2.2.1 "ab".data "!?".data "cd".data (by decide) (by decide)
      (by decide) (by decide)
  · have h := c7_sanitizer.2.2.2 fetchNone "img base".data (fun _ => "T".data) [] [1]
      (by decide)
    rw [h]
    decide

/-- Counterexample to C7 as stated: a run of two disallowed characters
yields a single underscore, not two — `sanitize "a!!b"` is `"a_b"`, not
the `"a__b"` that per-character replacement would give. -/
theorem c7_counterexample :
    sanitizeFilePart "a!!b".data = "a_b".data ∧
    ("a_b".data : List Char) ≠ "a__b".data := by
  refine ⟨by decide, by decide⟩
